import Mathlib

/-!
Shallow embedding of the fuel-price-monitoring job (src/main.py).

Python strings are modelled as `List Char` (`Str`), Python dicts as
association lists whose keys are unique by construction (assignment
replaces the first matching key in place, as CPython dicts do).
Numeric prices are modelled as `ℚ`; Python's binary floating point is
idealised as exact rational arithmetic, and `round(x, 2)` as
round-half-to-even on rationals.  A run that terminates abnormally
(`sys.exit(1)` or an uncaught exception) is modelled as `Option.none`.
-/

/-- Python strings as character lists. -/
abbrev Str := List Char

/-- `s.split(sep)` for a one-character separator, keeping empty chunks,
exactly like Python's `str.split` with an explicit separator. -/
def splitOnL (sep : Char) : Str → List Str
  | [] => [[]]
  | c :: rest =>
    let r := splitOnL sep rest
    if c = sep then [] :: r
    else match r with
      | [] => [[c]]
      | h :: t => (c :: h) :: t

/-- Python `str.lower()`, idealised as per-character ASCII lowering. -/
def lowerStr (s : Str) : Str := s.map Char.toLower

/-- Python `needle in hay` on strings: contiguous-substring test. -/
def substrB (needle : Str) : Str → Bool
  | [] => needle.isEmpty
  | c :: t => needle.isPrefixOf (c :: t) || substrB needle t

/-- The nested-dictionary values stored in a snapshot document: the
`date` key holds a string, every region key holds a region dictionary
mapping fuel-type names to the flat `price`/`type` dictionary. -/
inductive Val where
  | str : Str → Val
  | dict : List (Str × List (Str × Str)) → Val
deriving DecidableEq

/-- A snapshot document (`json_data` in the source): top-level dict. -/
abbrev TopDict := List (Str × Val)

/-- Python dict read `d[k]` / `k in d`: first (unique) matching key. -/
def lookupK {β : Type} : List (Str × β) → Str → Option β
  | [], _ => none
  | (k', v) :: t, k => if k' = k then some v else lookupK t k

/-- Python `k in d` on a dict. -/
def containsK {β : Type} (l : List (Str × β)) (k : Str) : Bool :=
  (lookupK l k).isSome

/-- Python dict assignment `d[k] = v`: replace the first matching key in
place, else append (CPython insertion-order semantics). -/
def setK {β : Type} : List (Str × β) → Str → β → List (Str × β)
  | [], k, v => [(k, v)]
  | (k', v') :: t, k, v => if k' = k then (k, v) :: t else (k', v') :: setK t k v

/-- One raw CSV row as `csv.DictReader` yields it: its key list (the
header fields) and its value list. -/
structure Row where
  keys : List Str
  values : List Str
deriving DecidableEq

/-- `"".join(item.values())` for a row. -/
def valueStr (row : Row) : Str := row.values.flatten

/-- `"".join(item.keys()).split(" ")[1]`: the date token extracted from
the row's header context; `none` models the uncaught `IndexError` when
the joined header has no second space-separated token. -/
def dateOf (row : Row) : Option Str :=
  (splitOnL ' ' row.keys.flatten).get? 1

/-- `re.match(r"([^;]+);([^;]+);([^;]+);([^;]+)", value_str)`: an
anchored-at-start prefix match.  It succeeds exactly when the string
starts with four non-empty semicolon-separated chunks; any content
after the fourth chunk is not inspected (so a row with five or more
fields still matches, its tail ignored). -/
def matchRow (s : Str) : Option (Str × Str × Str × Str) :=
  match splitOnL ';' s with
  | a :: b :: c :: d :: _ =>
    if a ≠ [] ∧ b ≠ [] ∧ c ≠ [] ∧ d ≠ [] then some (a, b, c, d) else none
  | _ => none

/-- The body of `data_preparation`'s loop for one row.  `none` models
any abnormal termination: the `IndexError` from date extraction, the
`sys.exit(1)` on a regex mismatch, and the `TypeError` raised when
`json_data[regione]` holds the date string (region literally named
`"date"` after a previous iteration stored the date there). -/
def processRow (jd : TopDict) (row : Row) : Option TopDict :=
  match dateOf row, matchRow (valueStr row) with
  | some date_str, some (r, c, s, p) =>
    let regione := lowerStr r
    let carburante := lowerStr c
    let servizio := lowerStr s
    let prezzo := lowerStr p
    let jd1 := if containsK jd regione then jd else setK jd regione (Val.dict [])
    match lookupK jd1 regione with
    | some (Val.dict rd) =>
      let rd1 := if containsK rd carburante then rd else setK rd carburante []
      match lookupK rd1 carburante with
      | some fd =>
        let fd1 := if containsK fd servizio then fd
                   else setK (setK fd "price".toList prezzo) "type".toList servizio
        some (setK (setK jd1 regione (Val.dict (setK rd1 carburante fd1)))
                "date".toList (Val.str date_str))
      | none => none
    | _ => none
  | _, _ => none

/-- `data_preparation(data)`: fold the loop body over the rows starting
from the empty dict; `some` is the returned snapshot, `none` an aborted
run (no snapshot produced). -/
def data_preparation (rows : List Row) : Option TopDict :=
  rows.foldlM processRow []

/-- Numeric value of a digit string, most significant digit first. -/
def digitsVal (l : Str) : ℕ :=
  l.foldl (fun n c => 10 * n + (c.toNat - 48)) 0

/-- Python `float(s)` restricted to plain decimal forms
`[+-]digits[.digits]` (with at least one digit in the whole literal),
which covers every price string the feed carries.  Other strings map to
`none`, modelling the uncaught `ValueError` that aborts the run.
(Python also accepts exponents, `inf`/`nan` and surrounding whitespace;
those forms never reach this code path and are conservatively mapped to
the aborting case.) -/
def pythonFloat (s : Str) : Option ℚ :=
  let signed : ℚ × Str :=
    match s with
    | '-' :: t => (-1, t)
    | '+' :: t => (1, t)
    | _ => (1, s)
  match splitOnL '.' signed.2 with
  | [ip] =>
    if ip ≠ [] ∧ ip.all Char.isDigit then some (signed.1 * digitsVal ip) else none
  | [ip, fp] =>
    if (ip ≠ [] ∨ fp ≠ []) ∧ ip.all Char.isDigit ∧ fp.all Char.isDigit
    then some (signed.1 * ((digitsVal ip : ℚ) + (digitsVal fp : ℚ) / 10 ^ fp.length))
    else none
  | _ => none

/-- `isinstance(obj[reg], dict)` for a key of a snapshot document. -/
def isDictAt (obj : TopDict) (reg : Str) : Bool :=
  match lookupK obj reg with
  | some (Val.dict _) => true
  | _ => false

/-- The region set `{reg for obj in docs for reg in obj.keys() if
isinstance(obj[reg], dict)}` shared by all four dict comprehensions in
`data_preparation_for_forecast`.  A Python set is returned in
unspecified iteration order; it is modelled as the deduplicated list of
keys in first-appearance order (the output mappings are read only by
key, so the order chosen here is irrelevant to every property). -/
def regionsOf (docs : List TopDict) : List Str :=
  (docs.flatMap (fun obj => (obj.map Prod.fst).filter (isDictAt obj))).dedup

/-- Python `fuel in item[regione]`: key test on a dict value, substring
test on a string value (the `date` entry). -/
def fuelMemB (v : Val) (fuel : Str) : Bool :=
  match v with
  | Val.dict rd => containsK rd fuel
  | Val.str s => substrB fuel s

/-- The comprehension filter `if regione in item and fuel in item[regione]`. -/
def rowPassB (item : TopDict) (regione fuel : Str) : Bool :=
  match lookupK item regione with
  | some v => fuelMemB v fuel
  | none => false

/-- The comprehension body `float(item[regione][fuel]['price'])`.
`none` models every abnormal termination on this expression: the
`TypeError` when `item[regione]` is the date string, the `KeyError`
when `'price'` is missing, and the `ValueError` from `float`. -/
def priceAt (item : TopDict) (regione fuel : Str) : Option ℚ :=
  match lookupK item regione with
  | some (Val.dict rd) =>
    match lookupK rd fuel with
    | some fd =>
      match lookupK fd "price".toList with
      | some p => pythonFloat p
      | none => none
    | none => none
  | _ => none

/-- One region's price list
`[float(item[regione][fuel]['price']) for item in docs if regione in item and fuel in item[regione]]`. -/
def seriesFor (docs : List TopDict) (regione fuel : Str) : Option (List ℚ) :=
  (docs.filter (fun item => rowPassB item regione fuel)).mapM
    (fun item => priceAt item regione fuel)

/-- One of the four dict comprehensions `region2prices_<fuel>`. -/
def region2prices_for (docs : List TopDict) (fuel : Str) :
    Option (List (Str × List ℚ)) :=
  (regionsOf docs).mapM (fun r => (seriesFor docs r fuel).map (fun s => (r, s)))

/-- `data_preparation_for_forecast(docs)`: the four per-fuel mappings,
assembled in the source's evaluation order; `none` is an aborted run. -/
def data_preparation_for_forecast (docs : List TopDict) :
    Option (List (Str × List (Str × List ℚ))) := do
  let g ← region2prices_for docs "gasolio".toList
  let l ← region2prices_for docs "gpl".toList
  let b ← region2prices_for docs "benzina".toList
  let m ← region2prices_for docs "metano".toList
  some [("gasolio".toList, g), ("gpl".toList, l),
        ("benzina".toList, b), ("metano".toList, m)]

/-- Nearest integer with ties to even: the rounding Python's `round`
uses, idealised from binary floats to exact rationals. -/
def roundHalfEven (q : ℚ) : ℤ :=
  let f := ⌊q⌋
  if q - f < 1 / 2 then f
  else if 1 / 2 < q - f then f + 1
  else if f % 2 = 0 then f else f + 1

/-- Python `round(x, 2)` on the rational idealisation. -/
def round2 (q : ℚ) : ℚ := (roundHalfEven (q * 100) : ℚ) / 100

/-- `forecast(prices)`.  The external ARIMA library is abstracted as an
oracle taking the series, the fixed order triple and the step count and
returning the raw one-step forecast, with `none` for a numerical
failure raised while fitting or forecasting; the surrounding
`try/except` turns that failure into `sys.exit(1)`, modelled as `none`
for the whole call.  A successful path returns `some` of the result
(`-1` sentinel, rounded mean, or rounded model forecast). -/
def forecast (arimaForecast : List ℚ → ℤ × ℤ × ℤ → ℕ → Option ℚ)
    (prices : List ℚ) : Option ℚ :=
  if prices.length = 0 then some (-1)
  else if prices.length < 5 then some (round2 (prices.sum / prices.length))
  else
    match arimaForecast prices (1, 1, 1) 1 with
    | some v => some (round2 v)
    | none => none

/-- Spec-side description of the Series Assembler's output for one
(region, fuel) pair, following §4.2 of the spec: scan the snapshots in
their given order, extract the price where the pair is present, skip
snapshots where it is absent. -/
def observedPrices (docs : List TopDict) (regione fuel : Str) : List ℚ :=
  docs.filterMap (fun item => priceAt item regione fuel)

/-- Projection: the stored price string of a (region, fuel) pair in a
snapshot built by `data_preparation`. -/
def priceStrAt (jd : TopDict) (r c : Str) : Option Str :=
  match lookupK jd r with
  | some (Val.dict rd) =>
    match lookupK rd c with
    | some fd => lookupK fd "price".toList
    | none => none
  | _ => none

/-- Projection: the stored service-type string of a (region, fuel) pair. -/
def typeStrAt (jd : TopDict) (r c : Str) : Option Str :=
  match lookupK jd r with
  | some (Val.dict rd) =>
    match lookupK rd c with
    | some fd => lookupK fd "type".toList
    | none => none
  | _ => none

/-- The (region, fuel) pair is present in a document under a dict value. -/
def pairPresentB (doc : TopDict) (regione fuel : Str) : Bool :=
  match lookupK doc regione with
  | some (Val.dict rd) => containsK rd fuel
  | _ => false

/-- The document's `date` entry, when present, holds a string (the
shape every snapshot built by this program has). -/
def dateIsStrB (doc : TopDict) : Bool :=
  match lookupK doc "date".toList with
  | some (Val.str _) => true
  | some (Val.dict _) => false
  | none => true

/-- A Python dict's key list has no duplicates; association lists built
by `setK` from `[]` keep this invariant. -/
def NodupKeys {β : Type} (l : List (Str × β)) : Prop :=
  (l.map Prod.fst).Nodup

/-- A string is lower-cased: it lies in the range of `lowerStr`. -/
def IsLowerS (s : Str) : Prop := ∃ t, s = lowerStr t

/-- Shape of the flat price/type dict stored per (region, fuel) pair. -/
def FuelShape (fd : List (Str × Str)) : Prop :=
  ∀ pe ∈ fd, (pe.1 = "price".toList ∨ pe.1 = "type".toList) ∧ IsLowerS pe.2

/-- Shape of one region's dict: lower-cased fuel keys, shaped entries. -/
def RegionShape (rd : List (Str × List (Str × Str))) : Prop :=
  ∀ fe ∈ rd, IsLowerS fe.1 ∧ FuelShape fe.2

/-- Shape of a snapshot under construction: unique keys; the `date` key
(if present) holds a string; every other key is a lower-cased region
name holding a shaped region dict. -/
def TopShape (jd : TopDict) : Prop :=
  NodupKeys jd ∧
  ∀ kv ∈ jd, (kv.1 = "date".toList → ∃ s, kv.2 = Val.str s) ∧
    (kv.1 ≠ "date".toList →
      IsLowerS kv.1 ∧ ∃ rd, kv.2 = Val.dict rd ∧ RegionShape rd)

/-- Number of entries of a dict carrying a given key (1 for a present
key of a genuine dict, whose keys are unique). -/
def countKey {β : Type} (l : List (Str × β)) (k : Str) : ℕ :=
  (l.filter (fun kv => kv.1 = k)).length

/-- One snapshot document for a single region and fuel type, as
`data_preparation` builds it and the store returns it. -/
def snapDoc (region fuel d p : Str) : TopDict :=
  [(region, Val.dict [(fuel, [("price".toList, p), ("type".toList, "self".toList)])]),
   ("date".toList, Val.str d)]

/-- A one-snapshot batch whose only region holds a fuel type outside
the four tracked ones. -/
def dieselDocs : List TopDict :=
  [snapDoc "lazio".toList "diesel".toList "2024-05-06".toList "1.80".toList]

/-- The spec's end-to-end example: three snapshots for region `lazio`,
fuel `benzina`, prices 1.80, 1.82, 1.81, newest first. -/
def e2eDocs : List TopDict :=
  [snapDoc "lazio".toList "benzina".toList "2024-05-06".toList "1.80".toList,
   snapDoc "lazio".toList "benzina".toList "2024-05-05".toList "1.82".toList,
   snapDoc "lazio".toList "benzina".toList "2024-05-04".toList "1.81".toList]

theorem lookupK_setK_self {β : Type} (l : List (Str × β)) (k : Str) (v : β) :
    lookupK (setK l k v) k = some v := by
  induction l with
  | nil => simp [setK, lookupK]
  | cons h t ih =>
    obtain ⟨k', v'⟩ := h
    by_cases hk : k' = k <;> simp [setK, lookupK, hk, ih]

theorem lookupK_setK_ne {β : Type} (l : List (Str × β)) (k k' : Str) (v : β)
    (h : k' ≠ k) : lookupK (setK l k v) k' = lookupK l k' := by
  induction l with
  | nil => simp [setK, lookupK, Ne.symm h]
  | cons hd t ih =>
    obtain ⟨k0, v0⟩ := hd
    by_cases hk : k0 = k
    · subst hk
      simp [setK, lookupK, Ne.symm h]
    · simp [setK, lookupK, hk, ih]

theorem mem_setK {β : Type} {l : List (Str × β)} {k : Str} {v : β}
    {p : Str × β} : p ∈ setK l k v → p = (k, v) ∨ p ∈ l := by
  induction l with
  | nil =>
    intro h
    simpa [setK] using h
  | cons hd t ih =>
    obtain ⟨k0, v0⟩ := hd
    intro h
    by_cases hk : k0 = k
    · subst hk
      simp only [setK, eq_self_iff_true, if_true, List.mem_cons] at h
      rcases h with h | h
      · exact Or.inl h
      · exact Or.inr (List.mem_cons_of_mem _ h)
    · simp only [setK, if_neg hk, List.mem_cons] at h
      rcases h with h | h
      · exact Or.inr (List.mem_cons.2 (Or.inl h))
      · rcases ih h with h' | h'
        · exact Or.inl h'
        · exact Or.inr (List.mem_cons_of_mem _ h')

theorem mem_setK_ne {β : Type} {l : List (Str × β)} {k : Str} {v : β}
    {p : Str × β} (h : p ∈ setK l k v) (hne : p.1 ≠ k) : p ∈ l := by
  rcases mem_setK h with h' | h'
  · exact absurd (congrArg Prod.fst h') hne
  · exact h'

theorem keys_setK {β : Type} (l : List (Str × β)) (k : Str) (v : β) :
    (setK l k v).map Prod.fst = l.map Prod.fst ∨
    (setK l k v).map Prod.fst = l.map Prod.fst ++ [k] := by
  induction l with
  | nil => simp [setK]
  | cons hd t ih =>
    obtain ⟨k0, v0⟩ := hd
    by_cases hk : k0 = k
    · subst hk
      simp [setK]
    · rcases ih with h | h <;> simp [setK, hk, h]

theorem nodupKeys_setK {β : Type} {l : List (Str × β)} {k : Str} {v : β} :
    NodupKeys l → NodupKeys (setK l k v) := by
  induction l with
  | nil =>
    intro _
    simp [NodupKeys, setK]
  | cons hd t ih =>
    obtain ⟨k0, v0⟩ := hd
    intro h
    simp only [NodupKeys, List.map_cons, List.nodup_cons] at h
    by_cases hk : k0 = k
    · subst hk
      simp only [NodupKeys, setK, eq_self_iff_true, if_true, List.map_cons,
        List.nodup_cons]
      exact h
    · have ht := ih h.2
      simp only [NodupKeys, setK, if_neg hk, List.map_cons, List.nodup_cons]
      refine ⟨fun hc => ?_, ht⟩
      rcases keys_setK t k v with he | he
      · exact h.1 (he ▸ hc)
      · rw [he, List.mem_append] at hc
        rcases hc with hc | hc
        · exact h.1 hc
        · simp only [List.mem_singleton] at hc
          exact hk hc

theorem mem_setK_eq_of_nodup {β : Type} {l : List (Str × β)} {k : Str}
    {v : β} {p : Str × β} (hk : p.1 = k) :
    NodupKeys l → p ∈ setK l k v → p = (k, v) := by
  induction l with
  | nil =>
    intro _ h
    simpa [setK] using h
  | cons hd t ih =>
    obtain ⟨k0, v0⟩ := hd
    intro hn h
    simp only [NodupKeys, List.map_cons, List.nodup_cons] at hn
    by_cases hk0 : k0 = k
    · subst hk0
      simp only [setK, eq_self_iff_true, if_true, List.mem_cons] at h
      rcases h with h | h
      · exact h
      · exact absurd (hk ▸ (List.mem_map_of_mem Prod.fst h)) hn.1
    · simp only [setK, if_neg hk0, List.mem_cons] at h
      rcases h with h | h
      · exact absurd ((congrArg Prod.fst h).symm.trans hk) hk0
      · exact ih hn.2 h

theorem lookupK_mem {β : Type} {l : List (Str × β)} {k : Str} {v : β} :
    lookupK l k = some v → (k, v) ∈ l := by
  induction l with
  | nil =>
    intro h
    simp [lookupK] at h
  | cons hd t ih =>
    obtain ⟨k0, v0⟩ := hd
    intro h
    by_cases hk : k0 = k
    · subst hk
      simp only [lookupK, eq_self_iff_true, if_true, Option.some.injEq] at h
      rw [← h]
      exact List.mem_cons_self _ _
    · simp only [lookupK, if_neg hk] at h
      exact List.mem_cons_of_mem _ (ih h)

theorem lookupK_eq_none_iff {β : Type} {l : List (Str × β)} {k : Str} :
    lookupK l k = none ↔ k ∉ l.map Prod.fst := by
  induction l with
  | nil => simp [lookupK]
  | cons hd t ih =>
    obtain ⟨k0, v0⟩ := hd
    by_cases hk : k0 = k
    · subst hk
      simp only [lookupK, eq_self_iff_true, if_true, List.map_cons, List.mem_cons]
      constructor
      · intro h
        exact absurd h (by simp)
      · intro h
        exact absurd (Or.inl trivial) h
    · simp only [lookupK, if_neg hk, List.map_cons, List.mem_cons, ih]
      constructor
      · intro h hc
        rcases hc with hc | hc
        · exact hk hc.symm
        · exact h hc
      · intro h hc
        exact h (Or.inr hc)

theorem fuelShape_nil : FuelShape [] := by
  intro pe hpe
  simp at hpe

theorem regionShape_nil : RegionShape [] := by
  intro fe hfe
  simp at hfe

theorem fuelShape_set {fd : List (Str × Str)} (hfd : FuelShape fd)
    {pz sv : Str} (hpz : IsLowerS pz) (hsv : IsLowerS sv) :
    FuelShape (setK (setK fd "price".toList pz) "type".toList sv) := by
  intro pe hpe
  rcases mem_setK hpe with he | he
  · rw [he]
    exact ⟨Or.inr rfl, hsv⟩
  · rcases mem_setK he with he2 | he2
    · rw [he2]
      exact ⟨Or.inl rfl, hpz⟩
    · exact hfd pe he2

theorem regionShape_set {rd : List (Str × List (Str × Str))}
    (hrd : RegionShape rd) {carb : Str} {fd1 : List (Str × Str)}
    (hcarb : IsLowerS carb) (hfd1 : FuelShape fd1) :
    RegionShape (setK rd carb fd1) := by
  intro fe hfe
  rcases mem_setK hfe with he | he
  · rw [he]
    exact ⟨hcarb, hfd1⟩
  · exact hrd fe he

theorem topShape_final {jd : TopDict} (hs : TopShape jd) {reg : Str}
    (hreg : IsLowerS reg) {rdF : List (Str × List (Str × Str))}
    (hrdF : RegionShape rdF) (ds : Str) {jdX : TopDict}
    (hX : jdX = jd ∨ jdX = setK jd reg (Val.dict [])) :
    TopShape (setK (setK jdX reg (Val.dict rdF)) "date".toList (Val.str ds)) := by
  obtain ⟨hn, hsh⟩ := hs
  have hnX : NodupKeys jdX := by
    rcases hX with hX | hX <;> rw [hX]
    · exact hn
    · exact nodupKeys_setK hn
  have hn1 : NodupKeys (setK jdX reg (Val.dict rdF)) := nodupKeys_setK hnX
  refine ⟨nodupKeys_setK hn1, ?_⟩
  intro kv hkv
  by_cases hdk : kv.1 = "date".toList
  · have heq := mem_setK_eq_of_nodup hdk hn1 hkv
    exact ⟨fun _ => ⟨ds, by rw [heq]⟩, fun hne => absurd hdk hne⟩
  · have hkv1 : kv ∈ setK jdX reg (Val.dict rdF) := mem_setK_ne hkv hdk
    by_cases hrk : kv.1 = reg
    · have heq := mem_setK_eq_of_nodup hrk hnX hkv1
      refine ⟨fun hc => absurd hc hdk, fun _ => ?_⟩
      rw [heq]
      exact ⟨hrk ▸ hreg, rdF, rfl, hrdF⟩
    · have hkv2 : kv ∈ jdX := mem_setK_ne hkv1 hrk
      have hkv3 : kv ∈ jd := by
        rcases hX with hX | hX
        · exact hX ▸ hkv2
        · exact mem_setK_ne (hX ▸ hkv2) hrk
      exact hsh kv hkv3

theorem processRow_shape {jd a1 : TopDict} {row : Row}
    (hs : TopShape jd) (h : processRow jd row = some a1) :
    TopShape a1 ∧ ∃ ds, lookupK a1 "date".toList = some (Val.str ds) := by
  rw [processRow] at h
  cases hdo : dateOf row with
  | none =>
    rw [hdo] at h
    simp at h
  | some ds =>
  cases hmr : matchRow (valueStr row) with
  | none =>
    rw [hdo, hmr] at h
    simp at h
  | some q =>
  obtain ⟨r, c, s, p⟩ := q
  rw [hdo, hmr] at h
  simp only at h
  by_cases hc1 : containsK jd (lowerStr r) = true
  · rw [if_pos hc1] at h
    cases hl : lookupK jd (lowerStr r) with
    | none =>
      rw [hl] at h
      simp at h
    | some v =>
    cases v with
    | str sv =>
      rw [hl] at h
      simp at h
    | dict rd =>
      rw [hl] at h
      simp only at h
      have hmem : (lowerStr r, Val.dict rd) ∈ jd := lookupK_mem hl
      have hrd : RegionShape rd := by
        by_cases hreg : lowerStr r = "date".toList
        · obtain ⟨s0, hs0⟩ := (hs.2 _ hmem).1 hreg
          exact absurd hs0 (by simp)
        · obtain ⟨_, rd2, hrd2, hsh2⟩ := (hs.2 _ hmem).2 hreg
          cases hrd2
          exact hsh2
      by_cases hc2 : containsK rd (lowerStr c) = true
      · rw [if_pos hc2] at h
        cases hf : lookupK rd (lowerStr c) with
        | none =>
          rw [hf] at h
          simp at h
        | some fd =>
          rw [hf] at h
          simp only [Option.some.injEq] at h
          have hfd : FuelShape fd := (hrd _ (lookupK_mem hf)).2
          have hfd1 : FuelShape (if containsK fd (lowerStr s) = true then fd
              else setK (setK fd "price".toList (lowerStr p)) "type".toList
                (lowerStr s)) := by
            by_cases hc3 : containsK fd (lowerStr s) = true
            · rw [if_pos hc3]
              exact hfd
            · rw [if_neg hc3]
              exact fuelShape_set hfd ⟨p, rfl⟩ ⟨s, rfl⟩
          rw [← h]
          constructor
          · exact topShape_final hs ⟨r, rfl⟩
              (regionShape_set hrd ⟨c, rfl⟩ hfd1) ds (Or.inl rfl)
          · exact ⟨ds, lookupK_setK_self _ _ _⟩
      · rw [if_neg hc2, lookupK_setK_self] at h
        simp only [Option.some.injEq] at h
        have hfd1 : FuelShape (if containsK ([] : List (Str × Str))
              (lowerStr s) = true then ([] : List (Str × Str))
            else setK (setK ([] : List (Str × Str)) "price".toList (lowerStr p))
              "type".toList (lowerStr s)) := by
          by_cases hc3 : containsK ([] : List (Str × Str)) (lowerStr s) = true
          · rw [if_pos hc3]
            exact fuelShape_nil
          · rw [if_neg hc3]
            exact fuelShape_set fuelShape_nil ⟨p, rfl⟩ ⟨s, rfl⟩
        rw [← h]
        constructor
        · exact topShape_final hs ⟨r, rfl⟩
            (regionShape_set (regionShape_set hrd ⟨c, rfl⟩ fuelShape_nil)
              ⟨c, rfl⟩ hfd1) ds (Or.inl rfl)
        · exact ⟨ds, lookupK_setK_self _ _ _⟩
  · rw [if_neg hc1, lookupK_setK_self] at h
    simp only at h
    by_cases hc2 : containsK ([] : List (Str × List (Str × Str)))
        (lowerStr c) = true
    · simp [containsK, lookupK] at hc2
    · rw [if_neg hc2, lookupK_setK_self] at h
      simp only [Option.some.injEq] at h
      have hfd1 : FuelShape (if containsK ([] : List (Str × Str))
            (lowerStr s) = true then ([] : List (Str × Str))
          else setK (setK ([] : List (Str × Str)) "price".toList (lowerStr p))
            "type".toList (lowerStr s)) := by
        by_cases hc3 : containsK ([] : List (Str × Str)) (lowerStr s) = true
        · rw [if_pos hc3]
          exact fuelShape_nil
        · rw [if_neg hc3]
          exact fuelShape_set fuelShape_nil ⟨p, rfl⟩ ⟨s, rfl⟩
      rw [← h]
      constructor
      · exact topShape_final hs ⟨r, rfl⟩
          (regionShape_set (regionShape_set regionShape_nil ⟨c, rfl⟩
            fuelShape_nil) ⟨c, rfl⟩ hfd1) ds (Or.inr rfl)
      · exact ⟨ds, lookupK_setK_self _ _ _⟩

theorem foldl_shape (rows : List Row) :
    ∀ acc jd : TopDict, TopShape acc →
      List.foldlM processRow acc rows = some jd →
      TopShape jd ∧ (rows = [] → jd = acc) ∧
        (rows ≠ [] → ∃ ds, lookupK jd "date".toList = some (Val.str ds)) := by
  induction rows with
  | nil =>
    intro acc jd hs h
    simp only [List.foldlM_nil] at h
    cases h
    exact ⟨hs, fun _ => rfl, fun hne => absurd rfl hne⟩
  | cons hd t ih =>
    intro acc jd hs h
    rw [List.foldlM_cons] at h
    cases hp : processRow acc hd with
    | none =>
      rw [hp] at h
      simp at h
    | some a1 =>
      rw [hp] at h
      simp only [Option.bind_eq_bind, Option.some_bind] at h
      obtain ⟨hs1, hdate1⟩ := processRow_shape hs hp
      obtain ⟨hsj, hnil, hne⟩ := ih a1 jd hs1 h
      refine ⟨hsj, by simp, fun _ => ?_⟩
      by_cases ht : t = []
      · rw [hnil ht]
        exact hdate1
      · exact hne ht

theorem topShape_nil : TopShape [] := by
  refine ⟨by simp [NodupKeys], ?_⟩
  intro kv hkv
  simp at hkv

theorem data_preparation_abort {rows : List Row} {row : Row}
    (hmem : row ∈ rows) (hbad : ∀ jd, processRow jd row = none) :
    data_preparation rows = none := by
  rw [data_preparation]
  generalize ([] : TopDict) = acc
  induction rows generalizing acc with
  | nil => simp at hmem
  | cons hd t ih =>
    rw [List.foldlM_cons]
    rcases List.mem_cons.1 hmem with he | he
    · rw [← he, hbad acc]
      rfl
    · cases hp : processRow acc hd with
      | none => rfl
      | some a1 =>
        simp only [Option.bind_eq_bind, Option.some_bind]
        exact ih he a1

theorem priceAt_none_of_not_pass {item : TopDict} {regione fuel : Str}
    (h : rowPassB item regione fuel = false) :
    priceAt item regione fuel = none := by
  rw [rowPassB] at h
  rw [priceAt]
  cases hl : lookupK item regione with
  | none => rfl
  | some v =>
    rw [hl] at h
    cases v with
    | str sv => rfl
    | dict rd =>
      simp only [fuelMemB] at h
      rw [containsK] at h
      cases hf : lookupK rd fuel with
      | none => simp [hf]
      | some fd =>
        rw [hf] at h
        simp at h

theorem seriesFor_eq_observed {docs : List TopDict} {regione fuel : Str}
    {s : List ℚ} (h : seriesFor docs regione fuel = some s) :
    s = observedPrices docs regione fuel := by
  rw [seriesFor] at h
  rw [observedPrices]
  induction docs generalizing s with
  | nil =>
    simp only [List.filter_nil, List.mapM_nil] at h
    cases h
    rfl
  | cons d t ih =>
    by_cases hp : rowPassB d regione fuel = true
    · rw [List.filter_cons, if_pos hp, List.mapM_cons] at h
      simp only [Option.bind_eq_bind, Option.bind_eq_some] at h
      obtain ⟨v, hv, h2⟩ := h
      obtain ⟨vs, hvs, h3⟩ := h2
      simp only [Option.pure_def, Option.some.injEq] at h3
      rw [List.filterMap_cons, hv, ← h3]
      simpa using ih hvs
    · have hp' : rowPassB d regione fuel = false := by
        cases hb : rowPassB d regione fuel
        · rfl
        · exact absurd hb hp
      rw [List.filter_cons, if_neg (by rw [hp']; simp)] at h
      rw [List.filterMap_cons, priceAt_none_of_not_pass hp']
      exact ih h

theorem mapM_pairs {docs : List TopDict} {fuel : Str} :
    ∀ (rs : List Str) (res : List (Str × List ℚ)),
      rs.mapM (fun r => (seriesFor docs r fuel).map (fun s => (r, s))) =
        some res →
      res.map Prod.fst = rs ∧
        (rs.Nodup → ∀ r ∈ rs, ∃ s, seriesFor docs r fuel = some s ∧
          lookupK res r = some s) := by
  intro rs
  induction rs with
  | nil =>
    intro res h
    simp only [List.mapM_nil, Option.pure_def, Option.some.injEq] at h
    cases h
    exact ⟨rfl, fun _ r hr => absurd hr (List.not_mem_nil r)⟩
  | cons a t ih =>
    intro res h
    rw [List.mapM_cons] at h
    simp only [Option.bind_eq_bind, Option.bind_eq_some] at h
    obtain ⟨x, hx, h2⟩ := h
    obtain ⟨xs, hxs, h3⟩ := h2
    simp only [Option.pure_def, Option.some.injEq] at h3
    simp only [Option.map_eq_some'] at hx
    obtain ⟨s0, hs0, hx0⟩ := hx
    obtain ⟨hkeys, hlk⟩ := ih xs hxs
    subst h3
    constructor
    · rw [List.map_cons, hkeys, ← hx0]
    · intro hnd r hr
      rcases List.mem_cons.1 hr with he | he
      · refine ⟨s0, he ▸ hs0, ?_⟩
        rw [← hx0, lookupK]
        simp [he]
      · have hna : a ∉ t := (List.nodup_cons.1 hnd).1
        have hrne : a ≠ r := fun hc => hna (hc ▸ he)
        obtain ⟨s1, hs1, hl1⟩ := hlk (List.nodup_cons.1 hnd).2 r he
        refine ⟨s1, hs1, ?_⟩
        rw [← hx0, lookupK, if_neg hrne]
        exact hl1

theorem mem_regionsOf {docs : List TopDict} {r : Str} :
    r ∈ regionsOf docs ↔ ∃ doc ∈ docs, isDictAt doc r = true := by
  rw [regionsOf, List.mem_dedup, List.mem_flatMap]
  constructor
  · rintro ⟨doc, hdoc, hr⟩
    obtain ⟨hmem, hfil⟩ := List.mem_filter.1 hr
    exact ⟨doc, hdoc, hfil⟩
  · rintro ⟨doc, hdoc, hr⟩
    refine ⟨doc, hdoc, List.mem_filter.2 ⟨?_, hr⟩⟩
    rw [isDictAt] at hr
    cases hl : lookupK doc r with
    | none =>
      rw [hl] at hr
      simp at hr
    | some v =>
      exact List.mem_map_of_mem Prod.fst (lookupK_mem hl)

theorem nodup_regionsOf (docs : List TopDict) : (regionsOf docs).Nodup :=
  List.nodup_dedup _

theorem region2prices_lookup {docs : List TopDict} {fuel : Str}
    {g : List (Str × List ℚ)} {r : Str}
    (hg : region2prices_for docs fuel = some g) (hr : r ∈ regionsOf docs) :
    lookupK g r = some (observedPrices docs r fuel) := by
  rw [region2prices_for] at hg
  obtain ⟨-, hlk⟩ := mapM_pairs _ _ hg
  obtain ⟨s, hs, hl⟩ := hlk (nodup_regionsOf docs) r hr
  rw [hl, seriesFor_eq_observed hs]

theorem region2prices_keys {docs : List TopDict} {fuel : Str}
    {g : List (Str × List ℚ)} (hg : region2prices_for docs fuel = some g) :
    g.map Prod.fst = regionsOf docs := by
  rw [region2prices_for] at hg
  exact (mapM_pairs _ _ hg).1

theorem dataprep_lookup {docs : List TopDict}
    {m : List (Str × List (Str × List ℚ))} {fuel : Str}
    {fm : List (Str × List ℚ)}
    (h : data_preparation_for_forecast docs = some m)
    (hf : lookupK m fuel = some fm) :
    region2prices_for docs fuel = some fm := by
  rw [data_preparation_for_forecast] at h
  cases hg : region2prices_for docs "gasolio".toList with
  | none =>
    rw [hg] at h
    simp at h
  | some g =>
  rw [hg] at h
  simp only [Option.bind_eq_bind, Option.some_bind] at h
  cases hl : region2prices_for docs "gpl".toList with
  | none =>
    rw [hl] at h
    simp at h
  | some lp =>
  rw [hl] at h
  simp only [Option.bind_eq_bind, Option.some_bind] at h
  cases hb : region2prices_for docs "benzina".toList with
  | none =>
    rw [hb] at h
    simp at h
  | some b =>
  rw [hb] at h
  simp only [Option.bind_eq_bind, Option.some_bind] at h
  cases hm : region2prices_for docs "metano".toList with
  | none =>
    rw [hm] at h
    simp at h
  | some mt =>
  rw [hm] at h
  simp only [Option.bind_eq_bind, Option.some_bind, Option.some.injEq] at h
  subst h
  by_cases h1 : "gasolio".toList = fuel
  · rw [lookupK, if_pos h1] at hf
    cases hf
    rw [← h1]
    exact hg
  · rw [lookupK, if_neg h1] at hf
    by_cases h2 : "gpl".toList = fuel
    · rw [lookupK, if_pos h2] at hf
      cases hf
      rw [← h2]
      exact hl
    · rw [lookupK, if_neg h2] at hf
      by_cases h3 : "benzina".toList = fuel
      · rw [lookupK, if_pos h3] at hf
        cases hf
        rw [← h3]
        exact hb
      · rw [lookupK, if_neg h3] at hf
        by_cases h4 : "metano".toList = fuel
        · rw [lookupK, if_pos h4] at hf
          cases hf
          rw [← h4]
          exact hm
        · rw [lookupK, if_neg h4, lookupK] at hf
          cases hf

theorem forecast_empty_eval (f : List ℚ → ℤ × ℤ × ℤ → ℕ → Option ℚ) :
    forecast f [] = some (-1) := rfl

theorem forecast_short_eval (f : List ℚ → ℤ × ℤ × ℤ → ℕ → Option ℚ)
    (l : List ℚ) (h1 : 0 < l.length) (h2 : l.length < 5) :
    forecast f l = some (round2 (l.sum / l.length)) := by
  rw [forecast, if_neg (by omega), if_pos h2]

theorem forecast_long_eval (f : List ℚ → ℤ × ℤ × ℤ → ℕ → Option ℚ)
    (l : List ℚ) (h : 5 ≤ l.length) :
    forecast f l = (f l (1, 1, 1) 1).map round2 := by
  rw [forecast, if_neg (by omega), if_neg (by omega)]
  cases f l (1, 1, 1) 1 <;> rfl

theorem roundHalfEven_nonneg {q : ℚ} (h : 0 ≤ q) : 0 ≤ roundHalfEven q := by
  rw [roundHalfEven]
  have hf : (0 : ℤ) ≤ ⌊q⌋ := Int.floor_nonneg.2 h
  by_cases h1 : q - ⌊q⌋ < 1 / 2
  · rw [if_pos h1]
    exact hf
  · rw [if_neg h1]
    by_cases h2 : 1 / 2 < q - ⌊q⌋
    · rw [if_pos h2]
      omega
    · rw [if_neg h2]
      by_cases h3 : ⌊q⌋ % 2 = 0
      · rw [if_pos h3]
        exact hf
      · rw [if_neg h3]
        omega

theorem round2_nonneg {q : ℚ} (h : 0 ≤ q) : 0 ≤ round2 q := by
  rw [round2]
  have := roundHalfEven_nonneg (q := q * 100) (by positivity)
  positivity

theorem mean_nonneg {l : List ℚ} (h1 : 0 < l.length)
    (h2 : ∀ x ∈ l, 0 ≤ x) : 0 ≤ l.sum / l.length := by
  have hs : 0 ≤ l.sum := List.sum_nonneg h2
  have hl : (0 : ℚ) < l.length := by exact_mod_cast h1
  positivity

/-- C2 (counterexample): the claim "for every non-empty price sequence
the returned value is never -1" fails on the code: a singleton sequence
holding the price -1 takes the short-series mean branch and returns the
sentinel value -1, so the marker is not distinguishable there. -/
theorem forecast_sentinel_collision :
    forecast (fun _ _ _ => none) [-1] = some (-1) ∧
      ([-1] : List ℚ) ≠ [] := by
  constructor
  · rw [forecast_short_eval _ _ (by norm_num) (by norm_num)]
    norm_num [round2, roundHalfEven]
  · simp

/-- C2 (amended): `forecast` returns the sentinel -1 on the empty
sequence, and on every non-empty sequence of fewer than five samples
whose prices are all nonnegative it returns a nonnegative value, which
in particular is never -1.  (For sequences containing negative prices
the sentinel can collide with a legitimate mean, and on the
autoregressive path the result is whatever the fitted model yields.) -/
theorem forecast_sentinel_amended (f : List ℚ → ℤ × ℤ × ℤ → ℕ → Option ℚ)
    (l : List ℚ) :
    forecast f [] = some (-1) ∧
      (0 < l.length → l.length < 5 → (∀ x ∈ l, 0 ≤ x) →
        ∃ q, forecast f l = some q ∧ 0 ≤ q ∧ q ≠ -1) := by
  refine ⟨forecast_empty_eval f, fun h1 h2 h3 => ?_⟩
  refine ⟨round2 (l.sum / l.length), forecast_short_eval f l h1 h2, ?_, ?_⟩
  · exact round2_nonneg (mean_nonneg h1 h3)
  · have := round2_nonneg (mean_nonneg h1 h3)
    intro hc
    rw [hc] at this
    norm_num at this

/-- C2 (witness): the amended statement evaluated at the singleton
sequence `[2]` with a trivially failing model oracle. -/
theorem forecast_sentinel_amended_witness :
    forecast (fun _ _ _ => none) [] = some (-1) ∧
      ∃ q, forecast (fun _ _ _ => none) [2] = some q ∧ 0 ≤ q ∧ q ≠ -1 :=
  ⟨(forecast_sentinel_amended (fun _ _ _ => none) [2]).1,
    (forecast_sentinel_amended (fun _ _ _ => none) [2]).2
      (by norm_num) (by norm_num) (by norm_num)⟩

/-- C3: for every price sequence with at least one and fewer than five
samples, `forecast` returns the arithmetic mean of the samples rounded
to two decimal places. -/
theorem forecast_short_mean (f : List ℚ → ℤ × ℤ × ℤ → ℕ → Option ℚ)
    (l : List ℚ) (h1 : 0 < l.length) (h2 : l.length < 5) :
    forecast f l = some (round2 (l.sum / l.length)) :=
  forecast_short_eval f l h1 h2

/-- C3 (witness): `forecast([10.0, 12.0, 11.0]) == 11.0`. -/
theorem forecast_short_mean_witness :
    forecast (fun _ _ _ => none) [10, 12, 11] = some 11 := by
  rw [forecast_short_mean (fun _ _ _ => none) [10, 12, 11]
    (by norm_num) (by norm_num)]
  norm_num [round2, roundHalfEven]

/-- C4: for every price sequence with five or more samples, `forecast`
takes the autoregressive path: the result is exactly the external
model's one-step forecast for the sequence at the fixed order (1, 1, 1),
rounded to two decimal places (so in particular it is not computed as
the mean of the samples). -/
theorem forecast_long_autoregressive
    (f : List ℚ → ℤ × ℤ × ℤ → ℕ → Option ℚ) (l : List ℚ)
    (h : 5 ≤ l.length) :
    forecast f l = (f l (1, 1, 1) 1).map round2 :=
  forecast_long_eval f l h

/-- C4 (witness): on the spec's 5-sample sequence with a model oracle
returning 12, the result is 12 (the rounded model output), which
differs from the rounded mean 10.7 of the samples. -/
theorem forecast_long_autoregressive_witness :
    forecast (fun _ _ _ => some 12) [10, 10.5, 11, 10.8, 11.2] = some 12 ∧
      round2 (([10, 10.5, 11, 10.8, 11.2] : List ℚ).sum / 5) ≠ 12 := by
  constructor
  · rw [forecast_long_autoregressive (fun _ _ _ => some 12) _ (by norm_num)]
    norm_num [Option.map, round2, roundHalfEven]
  · norm_num [round2, roundHalfEven]

/-- C5: for every sequence of length at least five on which the model
fit fails, `forecast` aborts the whole run (modelled as `none`): there
is no fallback from the autoregressive branch to the mean branch. -/
theorem forecast_fit_failure_fatal
    (f : List ℚ → ℤ × ℤ × ℤ → ℕ → Option ℚ) (l : List ℚ)
    (h : 5 ≤ l.length) (hf : f l (1, 1, 1) 1 = none) :
    forecast f l = none := by
  rw [forecast_long_eval f l h, hf]
  rfl

/-- C5 (witness): a degenerate constant 5-sample series with a failing
model oracle aborts rather than returning the mean. -/
theorem forecast_fit_failure_fatal_witness :
    forecast (fun _ _ _ => none) [1, 1, 1, 1, 1] = none :=
  forecast_fit_failure_fatal (fun _ _ _ => none) [1, 1, 1, 1, 1]
    (by norm_num) rfl

/-- C6 (counterexample): the claim "a row that does not decompose into
exactly four semicolon-separated fields aborts the run" fails on the
code: the regex is an anchored prefix match, so a five-field row such
as `a;b;c;d;e` is accepted (the tail after the fourth field is ignored)
and a snapshot is produced. -/
theorem five_field_row_accepted :
    (splitOnL ';' "a;b;c;d;e".toList).length ≠ 4 ∧
      (data_preparation
        [⟨["h 2024-05-06".toList], ["a;b;c;d;e".toList]⟩]).isSome = true := by
  constructor
  · decide
  · decide

/-- C6 (amended): the run aborts with no snapshot exactly when some row
fails the four-field prefix match, i.e. it has fewer than four
semicolon-separated fields or an empty field among the first four;
rows with extra fields beyond the fourth are accepted with the extra
content ignored.  This theorem proves the abort direction: one such row
anywhere in the batch makes `data_preparation` return no snapshot. -/
theorem malformed_row_aborts (rows : List Row) (row : Row)
    (hmem : row ∈ rows) (hbad : matchRow (valueStr row) = none) :
    data_preparation rows = none := by
  refine data_preparation_abort hmem (fun jd => ?_)
  rw [processRow, hbad]
  cases dateOf row <;> rfl

/-- C6 (witness): a batch with a well-formed row followed by a row with
an empty second field aborts with no snapshot. -/
theorem malformed_row_aborts_witness :
    data_preparation
      [⟨["h 2024-05-06".toList], ["a;b;c;d".toList]⟩,
       ⟨["h 2024-05-06".toList], ["a;;c;d".toList]⟩] = none :=
  malformed_row_aborts _ ⟨["h 2024-05-06".toList], ["a;;c;d".toList]⟩
    (by decide) (by decide)

theorem countKey_eq_one {β : Type} {l : List (Str × β)} {k : Str} {v : β} :
    NodupKeys l → lookupK l k = some v → countKey l k = 1 := by
  induction l with
  | nil =>
    intro _ h
    simp [lookupK] at h
  | cons hd t ih =>
    obtain ⟨k0, v0⟩ := hd
    intro hn h
    simp only [NodupKeys, List.map_cons, List.nodup_cons] at hn
    by_cases hk : k0 = k
    · subst hk
      rw [countKey, List.filter_cons]
      have hfil : t.filter (fun kv => decide (kv.1 = k0)) = [] := by
        rw [List.filter_eq_nil_iff]
        intro kv hkv
        simp only [decide_eq_true_eq]
        intro hc
        exact hn.1 (hc ▸ List.mem_map_of_mem Prod.fst hkv)
      simp [hfil]
    · rw [lookupK, if_neg hk] at h
      rw [countKey, List.filter_cons]
      have : (decide ((k0, v0).1 = k)) = false := by
        simp [hk]
      rw [this]
      simp only [Bool.false_eq_true, if_false]
      exact ih hn.2 h

/-- C9 (counterexample): the claim quantifies over every well-formed
row batch, but the empty batch (vacuously well-formed) yields the empty
snapshot, which contains no `date` entry at all rather than exactly
one. -/
theorem empty_batch_no_date :
    data_preparation ([] : List Row) = some [] ∧
      countKey ([] : TopDict) "date".toList = 0 :=
  ⟨rfl, rfl⟩

/-- C9 (amended): for every NON-EMPTY well-formed row batch for which a
snapshot is returned, the snapshot contains exactly one `date` entry,
and every region key is lower-cased and holds a region dictionary whose
fuel-type keys and stored values (service type included) are
lower-cased. -/
theorem snapshot_shape (rows : List Row) (jd : TopDict)
    (h : data_preparation rows = some jd) (hne : rows ≠ []) :
    countKey jd "date".toList = 1 ∧
      ∀ kv ∈ jd, kv.1 ≠ "date".toList →
        IsLowerS kv.1 ∧ ∃ rd, kv.2 = Val.dict rd ∧
          ∀ fe ∈ rd, IsLowerS fe.1 ∧ ∀ pe ∈ fe.2, IsLowerS pe.2 := by
  rw [data_preparation] at h
  obtain ⟨hs, -, hdate⟩ := foldl_shape rows [] jd topShape_nil h
  obtain ⟨ds, hds⟩ := hdate hne
  constructor
  · exact countKey_eq_one hs.1 hds
  · intro kv hkv hne'
    obtain ⟨hl, rd, hrd, hsh⟩ := (hs.2 kv hkv).2 hne'
    exact ⟨hl, rd, hrd, fun fe hfe =>
      ⟨(hsh fe hfe).1, fun pe hpe => ((hsh fe hfe).2 pe hpe).2⟩⟩

/-- C9 (witness): the amended statement evaluated on a one-row batch
with mixed-case fields. -/
theorem snapshot_shape_witness :
    (countKey ([("lazio".toList, Val.dict [("benzina".toList,
          [("price".toList, "1.80".toList), ("type".toList, "self".toList)])]),
        ("date".toList, Val.str "2024-05-06".toList)] : TopDict))
        "date".toList = 1 ∧
      ∀ kv ∈ ([("lazio".toList, Val.dict [("benzina".toList,
          [("price".toList, "1.80".toList), ("type".toList, "self".toList)])]),
        ("date".toList, Val.str "2024-05-06".toList)] : TopDict),
        kv.1 ≠ "date".toList →
          IsLowerS kv.1 ∧ ∃ rd, kv.2 = Val.dict rd ∧
            ∀ fe ∈ rd, IsLowerS fe.1 ∧ ∀ pe ∈ fe.2, IsLowerS pe.2 :=
  snapshot_shape
    [⟨["regione 2024-05-06".toList], ["Lazio;Benzina;Self;1.80".toList]⟩]
    _ (by decide) (by decide)

/-- C7 (counterexample): the claim "a region with zero observations for
a fuel type is absent from that fuel type's output mapping" fails on
the code: the region set is shared by all four comprehensions without a
fuel filter, so a region observed only under another fuel type (here
`diesel`) still gets an entry for `gasolio` — with an empty series, not
absence. -/
theorem empty_series_entry_example :
    (dieselDocs.all
      (fun doc => !rowPassB doc "lazio".toList "gasolio".toList)) = true ∧
    ((data_preparation_for_forecast dieselDocs).bind
        (fun m => lookupK m "gasolio".toList)).bind
      (fun fm => lookupK fm "lazio".toList) = some ([] : List ℚ) := by
  constructor
  · decide
  · decide

/-- C7 (amended): every region that appears as a dict-valued key in at
least one snapshot appears in the output mapping of every fuel type;
when it has zero observations for that fuel type its entry is the empty
sequence rather than being absent. -/
theorem region_entry_every_fuel (docs : List TopDict)
    (m : List (Str × List (Str × List ℚ))) (fuel : Str)
    (fm : List (Str × List ℚ)) (r : Str)
    (h : data_preparation_for_forecast docs = some m)
    (hf : lookupK m fuel = some fm) (hr : r ∈ regionsOf docs)
    (hpass : ∀ doc ∈ docs, rowPassB doc r fuel = false) :
    lookupK fm r = some ([] : List ℚ) := by
  have hobs : observedPrices docs r fuel = [] := by
    rw [observedPrices, List.filterMap_eq_nil_iff]
    intro doc hdoc
    exact priceAt_none_of_not_pass (hpass doc hdoc)
  rw [region2prices_lookup (dataprep_lookup h hf) hr, hobs]

/-- C7 (witness): the amended statement evaluated on the one-snapshot
`diesel` batch for fuel `gasolio` and region `lazio`. -/
theorem region_entry_every_fuel_witness :
    lookupK [("lazio".toList, ([] : List ℚ))] "lazio".toList =
      some ([] : List ℚ) :=
  region_entry_every_fuel dieselDocs
    [("gasolio".toList, [("lazio".toList, [])]),
     ("gpl".toList, [("lazio".toList, [])]),
     ("benzina".toList, [("lazio".toList, [])]),
     ("metano".toList, [("lazio".toList, [])])]
    "gasolio".toList [("lazio".toList, [])] "lazio".toList
    (by decide) (by decide) (by decide) (by decide)

/-- C8: for every snapshot batch, every fuel type present in the output
and every region key in the region set, the assembled sequence is
exactly the prices observed for the (region, fuel) pair, scanned in the
snapshots' given order, skipping snapshots where the pair is absent. -/
theorem series_assembler_observed (docs : List TopDict)
    (m : List (Str × List (Str × List ℚ))) (fuel : Str)
    (fm : List (Str × List ℚ)) (r : Str)
    (h : data_preparation_for_forecast docs = some m)
    (hf : lookupK m fuel = some fm) (hr : r ∈ regionsOf docs) :
    lookupK fm r = some (observedPrices docs r fuel) :=
  region2prices_lookup (dataprep_lookup h hf) hr

/-- C10: snapshots store `date` as a string, and the Series Assembler
only treats dict-valued keys as regions, so for any batch whose `date`
entries are strings the date key is never a region: it is absent from
the region set and from every fuel type's output mapping. -/
theorem date_not_region (docs : List TopDict)
    (m : List (Str × List (Str × List ℚ))) (fuel : Str)
    (fm : List (Str × List ℚ))
    (hshape : ∀ doc ∈ docs, dateIsStrB doc = true)
    (h : data_preparation_for_forecast docs = some m)
    (hf : lookupK m fuel = some fm) :
    "date".toList ∉ regionsOf docs ∧ lookupK fm "date".toList = none := by
  have hnr : "date".toList ∉ regionsOf docs := by
    intro hc
    obtain ⟨doc, hdoc, hdict⟩ := mem_regionsOf.1 hc
    have hstr := hshape doc hdoc
    rw [isDictAt] at hdict
    rw [dateIsStrB] at hstr
    cases hl : lookupK doc "date".toList with
    | none =>
      rw [hl] at hdict
      simp at hdict
    | some v =>
      cases v with
      | str sv =>
        rw [hl] at hdict
        simp at hdict
      | dict rd =>
        rw [hl] at hstr
        simp at hstr
  refine ⟨hnr, ?_⟩
  have hkeys := region2prices_keys (dataprep_lookup h hf)
  rw [lookupK_eq_none_iff, hkeys]
  exact hnr

/-- C10 (witness): evaluated on the one-snapshot `diesel` batch for the
`benzina` mapping. -/
theorem date_not_region_witness :
    "date".toList ∉ regionsOf dieselDocs ∧
      lookupK [("lazio".toList, ([] : List ℚ))] "date".toList = none :=
  date_not_region dieselDocs
    [("gasolio".toList, [("lazio".toList, [])]),
     ("gpl".toList, [("lazio".toList, [])]),
     ("benzina".toList, [("lazio".toList, [])]),
     ("metano".toList, [("lazio".toList, [])])]
    "benzina".toList [("lazio".toList, [])]
    (by decide) (by decide) (by decide)

theorem region2prices_single {docs : List TopDict} {fuel r : Str}
    {s : List ℚ} (hreg : regionsOf docs = [r])
    (hs : seriesFor docs r fuel = some s) :
    region2prices_for docs fuel = some [(r, s)] := by
  rw [region2prices_for, hreg]
  simp [List.mapM.loop, hs]

/-- C8 (witness): the spec's end-to-end example.  On three snapshots
for (lazio, benzina) with prices 1.80, 1.82, 1.81 newest first, the
assembled entry is exactly the observed sequence, the observed sequence
is [1.80, 1.82, 1.81] in snapshot order, and the short-series forecast
on it is the rounded mean 1.81. -/
theorem series_assembler_observed_witness :
    lookupK [("lazio".toList, ([9/5, 91/50, 181/100] : List ℚ))]
        "lazio".toList =
      some (observedPrices e2eDocs "lazio".toList "benzina".toList) ∧
    observedPrices e2eDocs "lazio".toList "benzina".toList =
      [9/5, 91/50, 181/100] ∧
    forecast (fun _ _ _ => none) [9/5, 91/50, 181/100] =
      some (181/100) := by
  have hobs : observedPrices e2eDocs "lazio".toList "benzina".toList =
      [9/5, 91/50, 181/100] := by
    simp [observedPrices, e2eDocs, snapDoc, priceAt, lookupK, pythonFloat,
      splitOnL, digitsVal, List.filterMap_cons]
    norm_num
  have hb : seriesFor e2eDocs "lazio".toList "benzina".toList =
      some [9/5, 91/50, 181/100] := by
    simp [seriesFor, e2eDocs, snapDoc, rowPassB, fuelMemB, priceAt, lookupK,
      containsK, pythonFloat, splitOnL, digitsVal, List.mapM.loop, List.filter]
    norm_num
  have hreg : regionsOf e2eDocs = ["lazio".toList] := by decide
  have hga : seriesFor e2eDocs "lazio".toList "gasolio".toList = some [] := by
    decide
  have hgp : seriesFor e2eDocs "lazio".toList "gpl".toList = some [] := by
    decide
  have hmt : seriesFor e2eDocs "lazio".toList "metano".toList = some [] := by
    decide
  have hg1 : region2prices_for e2eDocs "gasolio".toList =
      some [("lazio".toList, [])] := region2prices_single hreg hga
  have hg2 : region2prices_for e2eDocs "gpl".toList =
      some [("lazio".toList, [])] := region2prices_single hreg hgp
  have hg3 : region2prices_for e2eDocs "benzina".toList =
      some [("lazio".toList, [9/5, 91/50, 181/100])] :=
    region2prices_single hreg hb
  have hg4 : region2prices_for e2eDocs "metano".toList =
      some [("lazio".toList, [])] := region2prices_single hreg hmt
  have hm : data_preparation_for_forecast e2eDocs =
      some [("gasolio".toList, [("lazio".toList, [])]),
            ("gpl".toList, [("lazio".toList, [])]),
            ("benzina".toList, [("lazio".toList, [9/5, 91/50, 181/100])]),
            ("metano".toList, [("lazio".toList, [])])] := by
    rw [data_preparation_for_forecast, hg1, hg2, hg3, hg4]
    rfl
  refine ⟨?_, hobs, ?_⟩
  · exact series_assembler_observed e2eDocs _ "benzina".toList
      [("lazio".toList, [9/5, 91/50, 181/100])] "lazio".toList hm
      (by simp [lookupK]) (by decide)
  · rw [forecast_short_eval _ _ (by norm_num) (by norm_num)]
    norm_num [round2, roundHalfEven]

/-- C1 (counterexample): the claim "the first occurrence of a duplicate
(region, fuel) pair wins and later rows are dropped" fails on the code:
the guard checks whether the service-type string is a key of the inner
price/type dict (it checks the wrong key), which is true for ordinary
service types, so a later duplicate row overwrites the stored entry and
the second price 1.90 — not the first price 1.80 — is retained. -/
theorem dup_pair_second_wins_example :
    (data_preparation
        [⟨["regione 2024-05-06".toList], ["Lazio;Benzina;Self;1.80".toList]⟩,
         ⟨["regione 2024-05-06".toList],
          ["Lazio;Benzina;Servito;1.90".toList]⟩]).bind
      (fun jd => priceStrAt jd "lazio".toList "benzina".toList) =
        some "1.90".toList ∧
    "1.90".toList ≠ "1.80".toList := by
  constructor
  · decide
  · decide

/-- C1 (amended): duplicates are not dropped.  For a batch of two
well-formed rows carrying the same (region, fuel) pair after
normalization, with the region not literally named `date` and the
second row's service type not literally `price` or `type`, the snapshot
stores the price and service type of the SECOND row: last-observed
wins, the later duplicate overwrites the earlier entry.  (A later
duplicate whose lower-cased service type is literally `price` or `type`
is the only kind that is dropped.) -/
theorem dup_pair_last_wins (row1 row2 : Row)
    (d1 d2 r1 c1 s1 p1 r2 c2 s2 p2 : Str)
    (hd1 : dateOf row1 = some d1) (hd2 : dateOf row2 = some d2)
    (hm1 : matchRow (valueStr row1) = some (r1, c1, s1, p1))
    (hm2 : matchRow (valueStr row2) = some (r2, c2, s2, p2))
    (hr : lowerStr r2 = lowerStr r1) (hc : lowerStr c2 = lowerStr c1)
    (hrd : lowerStr r1 ≠ "date".toList)
    (hsp : lowerStr s2 ≠ "price".toList)
    (hst : lowerStr s2 ≠ "type".toList) :
    ∃ jd, data_preparation [row1, row2] = some jd ∧
      priceStrAt jd (lowerStr r1) (lowerStr c1) = some (lowerStr p2) ∧
      typeStrAt jd (lowerStr r1) (lowerStr c1) = some (lowerStr s2) := by
  have hpt : (['p', 'r', 'i', 'c', 'e'] : Str) ≠ ['t', 'y', 'p', 'e'] := by
    decide
  have hrd' : lowerStr r1 ≠ ['d', 'a', 't', 'e'] := by simpa using hrd
  have hsp' : (['p', 'r', 'i', 'c', 'e'] : Str) ≠ lowerStr s2 := by
    simpa using Ne.symm hsp
  have hst' : (['t', 'y', 'p', 'e'] : Str) ≠ lowerStr s2 := by
    simpa using Ne.symm hst
  have h1 : processRow [] row1 =
      some [(lowerStr r1, Val.dict [(lowerStr c1,
               [("price".toList, lowerStr p1), ("type".toList, lowerStr s1)])]),
            ("date".toList, Val.str d1)] := by
    rw [processRow, hd1, hm1]
    simp [containsK, lookupK, setK, hrd', hpt]
  have h2 : processRow
      [(lowerStr r1, Val.dict [(lowerStr c1,
           [("price".toList, lowerStr p1), ("type".toList, lowerStr s1)])]),
       ("date".toList, Val.str d1)] row2 =
      some [(lowerStr r1, Val.dict [(lowerStr c1,
               [("price".toList, lowerStr p2), ("type".toList, lowerStr s2)])]),
            ("date".toList, Val.str d2)] := by
    rw [processRow, hd2, hm2]
    simp [hr, hc, containsK, lookupK, setK, hrd', hpt, hsp', hst']
  refine ⟨[(lowerStr r1, Val.dict [(lowerStr c1,
       [("price".toList, lowerStr p2), ("type".toList, lowerStr s2)])]),
     ("date".toList, Val.str d2)], ?_, ?_, ?_⟩
  · rw [data_preparation]
    simp only [List.foldlM_cons, List.foldlM_nil, h1,
      Option.bind_eq_bind, Option.some_bind, h2]
    rfl
  · simp [priceStrAt, lookupK]
  · simp [typeStrAt, lookupK, hpt]


/-- C1 (witness): the amended statement on the concrete duplicate batch
(Lazio, Benzina) with prices 1.80 then 1.90: the stored entry is the
second row's. -/
theorem dup_pair_last_wins_witness :
    ∃ jd, data_preparation
        [⟨["regione 2024-05-06".toList], ["Lazio;Benzina;Self;1.80".toList]⟩,
         ⟨["regione 2024-05-06".toList],
          ["Lazio;Benzina;Servito;1.90".toList]⟩] = some jd ∧
      priceStrAt jd (lowerStr "Lazio".toList) (lowerStr "Benzina".toList) =
        some (lowerStr "1.90".toList) ∧
      typeStrAt jd (lowerStr "Lazio".toList) (lowerStr "Benzina".toList) =
        some (lowerStr "Servito".toList) :=
  dup_pair_last_wins
    ⟨["regione 2024-05-06".toList], ["Lazio;Benzina;Self;1.80".toList]⟩
    ⟨["regione 2024-05-06".toList], ["Lazio;Benzina;Servito;1.90".toList]⟩
    "2024-05-06".toList "2024-05-06".toList
    "Lazio".toList "Benzina".toList "Self".toList "1.80".toList
    "Lazio".toList "Benzina".toList "Servito".toList "1.90".toList
    (by decide) (by decide) (by decide) (by decide) (by decide) (by decide)
    (by decide) (by decide) (by decide)
